import Mathlib

/-!
Shallow embedding of `ros_github_scripts/ci_for_pr.py` (ros-tooling/ros-github-scripts).

Python dictionaries preserve insertion order, so a manifest (the `repositories`
mapping of a ros2.repos file) is modelled as an association list `List (String × RepoEntry)`
whose keys are unique.  `dict.pop` and `dict[k] = v` are modelled by `dictPop` and
`dictSet` below, matching Python semantics: assignment to an existing key updates the
value in place (keeping the key's original position), assignment to a fresh key appends.

Fatal failures are modelled by `Except Err`: `panic` in the source raises
`RuntimeError('Panic: ' + msg)`; uncaught builtin exceptions (`ValueError` from `int`,
`KeyError` from a dict lookup, `AssertionError`, `requests.exceptions.ConnectionError`)
get their own constructors since the source distinguishes them (some are intentionally
raised, some are caught by `except` clauses).
-/

/-- Errors that terminate a run of the tool.  `panic msg` is the source's own
`panic(msg)` helper; the others are uncaught Python builtin exceptions. -/
inductive Err where
  | panic (msg : String)
  | valueError
  | keyError (key : String)
  | assertionError
  | connectionError
  | otherException
  deriving DecidableEq, Repr

/-- One value of the `repositories` mapping of a ros2.repos manifest:
`{type: ..., url: ..., version: ...}`. -/
structure RepoEntry where
  type : String
  url : String
  version : String
  deriving DecidableEq, Repr

/-- The `repositories` mapping of a ros2.repos manifest, as an insertion-ordered
association list (Python dict). -/
abbrev Manifest := List (String × RepoEntry)

/-- The fields of a `github.PullRequest.PullRequest` object that `create_ci_gist`
reads: `head.ref`, `head.repo.full_name`, `base.repo.full_name`, `number`. -/
structure PullRequest where
  headRef : String
  headRepo : String
  baseRepo : String
  number : Int
  deriving DecidableEq, Repr

/-- Python `d.pop(k, None)` on an insertion-ordered dict: returns the removed
value (if any) and the remaining dict. -/
def dictPop (m : Manifest) (k : String) : Option RepoEntry × Manifest :=
  match m with
  | [] => (none, [])
  | (k', v) :: rest =>
    if k' = k then (some v, rest)
    else
      let r := dictPop rest k
      (r.1, (k', v) :: r.2)

/-- Python `d[k] = v` on an insertion-ordered dict: updates in place if the key is
present (keeping its position), otherwise appends. -/
def dictSet (m : Manifest) (k : String) (v : RepoEntry) : Manifest :=
  match m with
  | [] => [(k, v)]
  | (k', v') :: rest =>
    if k' = k then (k, v) :: rest else (k', v') :: dictSet rest k v

/-- The keys of a manifest, in order. -/
def manifestKeys (m : Manifest) : List String := m.map Prod.fst

/-- The entry that `create_ci_gist` inserts for a pull request (ci_for_pr.py lines
95-99): type `git`, URL `https://github.com/<head repo>.git`, version = head ref. -/
def prEntry (pr : PullRequest) : RepoEntry :=
  { type := "git"
    url := "https://github.com/" ++ pr.headRepo ++ ".git"
    version := pr.headRef }

/-- One iteration of the loop in `create_ci_gist` (lines 77-99): pop the base
repository's entry; if present with a non-git type, panic; otherwise (present and
git, or absent with only a warning logged) insert the head repository's entry. -/
def mergeStep (m : Manifest) (pr : PullRequest) : Except Err Manifest :=
  match dictPop m pr.baseRepo with
  | (some e, m') =>
    if e.type ≠ "git" then .error (.panic "Chosen repository is not git-based")
    else .ok (dictSet m' pr.headRepo (prEntry pr))
  | (none, m') => .ok (dictSet m' pr.headRepo (prEntry pr))

/-- The manifest-merge loop of `create_ci_gist` (lines 75-99), starting from the
fetched baseline `master_repos` and folding over the pull requests. -/
def mergePulls (m : Manifest) : List PullRequest → Except Err Manifest
  | [] => .ok m
  | pr :: rest =>
    match mergeStep m pr with
    | .ok m' => mergePulls m' rest
    | .error e => .error e

/-!
Model of `re.match(r'https://github.com/(.*)/(.*)/pull/([0-9]+)', pull)`
(ci_for_pr.py line 181/184).  `re.match` anchors at the start only; `.` matches any
character except a newline; `(.*)` is greedy with backtracking; `[0-9]+` is greedy;
the pattern has no `$`, so trailing text is ignored.  Note that the `.` of
`github.com` in the pattern is itself a metacharacter matching any non-newline
character.  The standard recursive backtracking formulation below tries to extend a
`.*` group first and falls back to the literal continuation, which visits candidate
split points longest-first, exactly like the greedy engine.
-/

/-- ASCII decimal digit test, `[0-9]`. -/
def isDigitChar (c : Char) : Bool := '0' ≤ c && c ≤ '9'

/-- Greedy `[0-9]+` at the head of the input: the maximal digit run. -/
def takeDigits (l : List Char) : List Char := l.takeWhile isDigitChar

/-- The literal part `/pull/` of the pattern. -/
def pullLit : List Char := ['/', 'p', 'u', 'l', 'l', '/']

/-- Attempt the continuation `/pull/([0-9]+)` at the current position: succeeds iff
the input starts with `/pull/` followed by at least one digit, capturing the maximal
digit run. -/
def litTry (l : List Char) : Option (List Char) :=
  if l.take 6 = pullLit then
    let ds := takeDigits (l.drop 6)
    if ds = [] then none else some ds
  else none

/-- Backtracking match of `(.*)/pull/([0-9]+)` against `l`: the second capture group
(greedy, longest-first) and the digit group. -/
def tailMatch : List Char → Option (List Char × List Char)
  | [] => none
  | c :: rest =>
    match (if c = '\n' then none else (tailMatch rest).map fun p => (c :: p.1, p.2)) with
    | some r => some r
    | none => (litTry (c :: rest)).map fun ds => ([], ds)

/-- Backtracking match of `(.*)/(.*)/pull/([0-9]+)` against `l`: all three capture
groups, each `.*` greedy longest-first. -/
def urlTail : List Char → Option (List Char × List Char × List Char)
  | [] => none
  | c :: rest =>
    match (if c = '\n' then none else (urlTail rest).map fun t => (c :: t.1, t.2)) with
    | some r => some r
    | none =>
      if c = '/' then (tailMatch rest).map fun p => ([], p.1, p.2) else none

/-- `re.match(r'https://github.com/(.*)/(.*)/pull/([0-9]+)', s)` returning the three
capture groups on success.  The `.` of `github.com` matches any non-newline
character. -/
def githubUrlMatch (s : String) : Option (String × String × String) :=
  if s.data.take 14 = "https://github".data then
    match s.data.drop 14 with
    | c :: rest =>
      if c ≠ '\n' && rest.take 4 = "com/".data then
        (urlTail (rest.drop 4)).map fun t => (⟨t.1⟩, ⟨t.2.1⟩, ⟨t.2.2⟩)
      else none
    | [] => none
  else none

/-!
Model of Python `int(s)` for `str` input: surrounding whitespace is stripped, an
optional single `+`/`-` sign is allowed, and the remainder must be a nonempty digit
string.  (Python additionally allows underscores between digits, which no input in
this tool's domain uses.)  On failure `int` raises `ValueError`.
-/

/-- Characters Python's `int` strips from both ends of its string argument. -/
def isPyWs (c : Char) : Bool :=
  c = ' ' || c = '\t' || c = '\n' || c = '\r' || c = '\x0b' || c = '\x0c'

/-- Numeric value of a digit string, most significant first. -/
def digitsToNat (l : List Char) : Nat :=
  l.foldl (fun a c => a * 10 + (c.toNat - 48)) 0

/-- The whitespace stripping Python's `int` applies to its string argument. -/
def pyStrip (l : List Char) : List Char :=
  ((l.dropWhile isPyWs).reverse.dropWhile isPyWs).reverse

/-- Sign and digit parsing of Python's `int` after stripping. -/
def pyIntCore : List Char → Option Int
  | [] => none
  | c :: ds =>
    if c = '+' then
      if ds ≠ [] ∧ ds.all isDigitChar then some (Int.ofNat (digitsToNat ds)) else none
    else if c = '-' then
      if ds ≠ [] ∧ ds.all isDigitChar then some (-(Int.ofNat (digitsToNat ds))) else none
    else
      if (c :: ds).all isDigitChar then some (Int.ofNat (digitsToNat (c :: ds))) else none

/-- Python `int(s)` on a `str`: `some n` on success, `none` when it raises
`ValueError`. -/
def pyInt (s : String) : Option Int :=
  pyIntCore (pyStrip s.data)

/-!
Model of `validate_and_fetch_pull_list` (ci_for_pr.py lines 177-208).  The network
part (fetching each pull request) happens only after the whole list is parsed and
deduplicated; the value modelled here is the `repos_to_prs` insertion-ordered dict
as an association list `List (String × Int)`.

Note on line 193-196 of the source: `int(pull_number_str)` raises `ValueError` on a
malformed number, but the `except TypeError` clause only catches `TypeError`, which
`int` never raises for a `str` argument — so the `panic("Pull request number ...")`
branch is dead code and a malformed number escapes as an uncaught `ValueError`.
-/

/-- Python `pull.count('#')`. -/
def hashCount (pull : String) : Nat := pull.data.count '#'

/-- Python `pull.split('#')` under the guarantee `pull.count('#') == 1`: the parts
before and after the unique `#`. -/
def splitHash (pull : String) : String × String :=
  (⟨pull.data.takeWhile (· ≠ '#')⟩, ⟨(pull.data.dropWhile (· ≠ '#')).drop 1⟩)

/-- Parsing of one pull-request descriptor (lines 184-196): URL form via the regex,
else the `org/repo#number` fallback requiring exactly one `#`; then `int` on the
number part (whose parse failure escapes as `ValueError`, see above). -/
def resolveOne (pull : String) : Except Err (String × Int) :=
  match githubUrlMatch pull with
  | some (g1, g2, num) =>
    match pyInt num with
    | some n => .ok (g1 ++ "/" ++ g2, n)
    | none => .error .valueError
  | none =>
    if hashCount pull ≠ 1 then
      .error (.panic ("Pull request descriptor doesn't match org/repo#number format: " ++ pull))
    else
      let rn := splitHash pull
      match pyInt rn.2 with
      | some n => .ok (rn.1, n)
      | none => .error .valueError

/-- The duplicate-repository panic message of line 199. -/
def dupMsg (repo : String) : String :=
  "Can't simultaneously test multiple PRs for the same repository (" ++ repo ++ ")"

/-- The loop of lines 183-201 with `repos_to_prs` as the accumulator: parse each
descriptor, panic on a repeated base repository, otherwise record it. -/
def validateLoop (acc : List (String × Int)) : List String → Except Err (List (String × Int))
  | [] => .ok acc
  | pull :: rest =>
    match resolveOne pull with
    | .error e => .error e
    | .ok rn =>
      if acc.any (fun e => e.1 = rn.1) then .error (.panic (dupMsg rn.1))
      else validateLoop (acc ++ [rn]) rest

/-- `validate_and_fetch_pull_list`, up to the network fetch of each recorded
`(repository, pull number)` pair: the parsed and deduplicated `repos_to_prs` dict. -/
def validatePullList (pulls : List String) : Except Err (List (String × Int)) :=
  validateLoop [] pulls

/-!
Model of `run_jenkins_build` (ci_for_pr.py lines 235-318) and the parts of `main`
(lines 399-475) the claims are about.  Network effects are instrumented: every
outward call appends a `NetAction` to a trace, and the behaviour of the outside
world is a parameter (`World`), so statements like "fails before any remote call"
become statements about the returned trace.
-/

/-- Outward (network) calls made by the tool, in program order. -/
inductive NetAction where
  | searchIssues
  | getRepo (name : String)
  | getPull (repo : String) (number : Int)
  | fetchReposFile (target : String)
  | createGist
  | getUser
  | connectJenkins
  | fetchJobInfo
  | invokeBuild
  | commentOnPr (repo : String) (number : Int)
  deriving DecidableEq, Repr

/-- `ROS_DISTRO_TO_UBUNTU_DISTRO` (lines 37-44). -/
def ROS_DISTRO_TO_UBUNTU_DISTRO : List (String × String) :=
  [("noetic", "focal"), ("humble", "jammy"), ("iron", "jammy"),
   ("jazzy", "noble"), ("kilted", "noble"), ("rolling", "")]

/-- `ROS_DISTRO_TO_RHEL_DISTRO` (lines 46-52). -/
def ROS_DISTRO_TO_RHEL_DISTRO : List (String × String) :=
  [("humble", "8"), ("iron", "9"), ("jazzy", "9"), ("kilted", "9"), ("rolling", "")]

/-- `SERVER_RETRIES` (line 35). -/
def SERVER_RETRIES : Nat := 2

/-- Python truthiness of an `Optional[str]`: `None` and the empty string are
falsy. -/
def pyTruthyStr : Option String → Bool
  | none => false
  | some s => s ≠ ""

/-- Python truthiness of an `Optional[List[...]]`: `None` and the empty list are
falsy. -/
def pyTruthyList {α : Type} : Option (List α) → Bool
  | none => false
  | some l => !l.isEmpty

/-- Python `table[key]` on a dict: the value, or an uncaught `KeyError`. -/
def pyIndex (table : List (String × String)) (key : String) : Except Err String :=
  match table.lookup key with
  | some v => .ok v
  | none => .error (.keyError key)

/-- Outcome of one attempt at `jenkins[DEFAULT_JOB]` (line 264): success, a
`requests.exceptions.ConnectionError`, or any other exception. -/
inductive Outcome where
  | ok
  | connErr
  | otherErr
  deriving DecidableEq, Repr

/-- Result of the retry loop of lines 259-270. -/
inductive FetchResult where
  | ok
  | connErrRaised
  | otherRaised
  deriving DecidableEq, Repr

/-- The `while retries_remaining >= 0` loop of lines 261-270: `server i` is the
outcome of the `i`-th attempt (0-based).  On success, break; a non-connection
exception is not caught by the `except` clause and propagates at once; a connection
error decrements `retries_remaining` and is re-raised once it drops below zero.
Returns the result together with the number of attempts made. -/
def fetchJobLoop (server : Nat → Outcome) : Nat → Nat → FetchResult × Nat
  | 0, attempt =>
    match server attempt with
    | .ok => (.ok, attempt + 1)
    | .otherErr => (.otherRaised, attempt + 1)
    | .connErr => (.connErrRaised, attempt + 1)
  | r + 1, attempt =>
    match server attempt with
    | .ok => (.ok, attempt + 1)
    | .otherErr => (.otherRaised, attempt + 1)
    | .connErr => fetchJobLoop server r (attempt + 1)

/-- The retry loop started with `retries_remaining = SERVER_RETRIES` (line 259). -/
def fetchJob (server : Nat → Outcome) : FetchResult × Nat :=
  fetchJobLoop server SERVER_RETRIES 0

/-- Behaviour of the outside world (GitHub, raw.githubusercontent, Jenkins) during
one run.  Each field answers one kind of outward call. -/
structure World where
  /-- `repositories` mapping served for `REPOS_URL.format(target)` (`fetch_repos`). -/
  baseline : String → Manifest
  /-- The pull request returned by `get_repo(name).get_pull(number)`. -/
  pullAt : String → Int → PullRequest
  /-- `gist.files['ros2.repos'].raw_url` of the created gist. -/
  gistUrl : String
  /-- `get_user().login`. -/
  userLogin : String
  /-- Open pull requests of the authenticated user (`search_issues` result). -/
  userPulls : List PullRequest
  /-- Descriptor texts and pull requests chosen in `prompt_pull_selection`. -/
  selection : List String × List PullRequest
  /-- Outcome of the `i`-th `jenkins[DEFAULT_JOB]` attempt. -/
  jobFetch : Nat → Outcome
  /-- Console output lines of the completed `ci_launcher` build. -/
  console : List String

/-- `run_jenkins_build` (lines 235-318): the assert and the two distro-table
lookups run before the Jenkins connection is opened; then the connection, the
bounded-retry job-info fetch, the build invocation, and the scrape of console lines
starting with `*`.  Returns the outcome together with the trace of outward calls. -/
def run_jenkins_build (w : World) (gistUrl branchName : Option String)
    (target : String) : Except Err String × List NetAction :=
  if ¬ (pyTruthyStr gistUrl || pyTruthyStr branchName) then (.error .assertionError, [])
  else
    match pyIndex ROS_DISTRO_TO_UBUNTU_DISTRO target with
    | .error e => (.error e, [])
    | .ok _ =>
      match pyIndex ROS_DISTRO_TO_RHEL_DISTRO target with
      | .error e => (.error e, [])
      | .ok _ =>
        match fetchJob w.jobFetch with
        | (.connErrRaised, n) =>
          (.error .connectionError, .connectJenkins :: List.replicate n .fetchJobInfo)
        | (.otherRaised, n) =>
          (.error .otherException, .connectJenkins :: List.replicate n .fetchJobInfo)
        | (.ok, n) =>
          let linkLines := w.console.filter (fun line => line.startsWith "*")
          (.ok (String.intercalate "\n" linkLines),
            .connectJenkins :: List.replicate n .fetchJobInfo ++ [.invokeBuild])

/-- The package-list handling of `main` (lines 442-449): extend the build and test
argument strings according to `--only-fixes-test`. -/
def applyPackages (buildArgs testArgs : String) (packages : List String)
    (onlyFixesTest : Bool) : String × String :=
  let packagesChanged := String.intercalate " " packages
  if onlyFixesTest then
    (buildArgs ++ " --packages-up-to " ++ packagesChanged,
     testArgs ++ " --packages-select " ++ packagesChanged)
  else
    (buildArgs ++ " --packages-above-and-dependencies " ++ packagesChanged,
     testArgs ++ " --packages-above " ++ packagesChanged)

/-- The panic message of line 406. -/
def tokenPanicMsg : String :=
  "Neither environment variable GITHUB_ACCESS_TOKEN nor GITHUB_TOKEN are set"

/-- The credential lookup of `main` (lines 402-406): `GITHUB_ACCESS_TOKEN`, falling
back to `GITHUB_TOKEN` when the former is unset or falsy, panicking when both
are. -/
def tokenLookup (env : String → Option String) : Except Err String :=
  let t1 := env "GITHUB_ACCESS_TOKEN"
  let t := if pyTruthyStr t1 then t1 else env "GITHUB_TOKEN"
  if pyTruthyStr t then .ok (t.getD "") else .error (.panic tokenPanicMsg)

/-- `fetch_user_pulls` (lines 111-130): look up the authenticated user, panic on a
missing login, search for the user's open pull requests, panic when there are
none. -/
def fetch_user_pulls (w : World) : Except Err (List PullRequest) × List NetAction :=
  if w.userLogin = "" then
    (.error (.panic "Couldn't get user login to search for PRs"), [.getUser])
  else if w.userPulls = [] then
    (.error (.panic "It seems that you have no open PRs"), [.getUser, .searchIssues])
  else (.ok w.userPulls, [.getUser, .searchIssues])

/-- The network phase of `validate_and_fetch_pull_list` (lines 203-208): for each
recorded `(repository, number)` pair, `get_repo` then `get_pull`, in dict order. -/
def fetchResolved (w : World) : List (String × Int) → List PullRequest × List NetAction
  | [] => ([], [])
  | (r, n) :: rest =>
    let t := fetchResolved w rest
    (w.pullAt r n :: t.1, .getRepo r :: .getPull r n :: t.2)

/-- `validate_and_fetch_pull_list` (lines 177-208) with its network phase: parse and
deduplicate, then fetch each pull request. -/
def validate_and_fetch_pull_list (w : World) (pulls : List String) :
    Except Err (List PullRequest) × List NetAction :=
  match validatePullList pulls with
  | .error e => (.error e, [])
  | .ok rns =>
    let t := fetchResolved w rns
    (.ok t.1, t.2)

/-- `create_ci_gist` (lines 68-108): fetch the baseline manifest for the target
release, run the merge loop, and publish the result as a gist, returning its raw
URL. -/
def create_ci_gist (w : World) (pulls : List PullRequest) (target : String) :
    Except Err String × List NetAction :=
  match mergePulls (w.baseline target) pulls with
  | .error e => (.error e, [.fetchReposFile target])
  | .ok _ => (.ok w.gistUrl, [.fetchReposFile target, .createGist])

/-- The parsed command line (`parse_args`, lines 341-396).  String options default
to `''`, list options to `None`. -/
structure ParsedArgs where
  branch : Option String
  pulls : Option (List String)
  interactive : Bool
  packages : Option (List String)
  target : String
  build : Bool
  comment : Bool
  onlyFixesTest : Bool
  colconBuildArgs : String
  colconTestArgs : String
  cmakeArgs : String
  deriving Repr

/-- The pull-selection step of `main` (lines 409-416): interactive prompt, explicit
`--pulls` list, or neither; yields the descriptor texts and the chosen pull
requests. -/
def selectPulls (w : World) (parsed : ParsedArgs) :
    Except Err (Option (List String) × List PullRequest) × List NetAction :=
  if parsed.interactive then
    match fetch_user_pulls w with
    | (.error e, tr) => (.error e, tr)
    | (.ok _, tr) => (.ok (some w.selection.1, w.selection.2), tr)
  else if pyTruthyList parsed.pulls then
    match validate_and_fetch_pull_list w (parsed.pulls.getD []) with
    | (.error e, tr) => (.error e, tr)
    | (.ok prs, tr) => (.ok (parsed.pulls, prs), tr)
  else (.ok (parsed.pulls, []), [])

/-- The gist step of `main` (lines 431-434): only when pull requests were chosen
and no branch was given. -/
def gistStep (w : World) (parsed : ParsedArgs) (chosenPulls : List PullRequest) :
    Except Err (Option String) × List NetAction :=
  if chosenPulls ≠ [] ∧ ¬ pyTruthyStr parsed.branch then
    match create_ci_gist w chosenPulls parsed.target with
    | (.error e, tr) => (.error e, tr)
    | (.ok url, tr) => (.ok (some url), tr)
  else (.ok none, [])

/-- The panic message of lines 436-438. -/
def colconPanicMsg : String :=
  "colcon build, cmake or test args can only be specified when doing a build"

/-- The comment step (`comment_results`, lines 321-338): when `--comment` is set,
post the contents on each chosen pull request. -/
def comment_results (sendToGithub : Bool) (pulls : List PullRequest) : List NetAction :=
  if sendToGithub then pulls.map fun pr => .commentOnPr pr.baseRepo pr.number
  else []

/-- `main` (lines 399-475), instrumented with the trace of outward calls: credential
lookup, pull selection, the two selection panics, gist creation, the colcon-args
check, package and cmake argument assembly, the optional Jenkins build, and the
final comment step.  (Named `ciForPrMain` because Lean reserves `main` for program
entry points.) -/
def ciForPrMain (w : World) (env : String → Option String) (parsed : ParsedArgs) :
    Except Err Unit × List NetAction :=
  match tokenLookup env with
  | .error e => (.error e, [])
  | .ok _token =>
    match selectPulls w parsed with
    | (.error e, tr) => (.error e, tr)
    | (.ok sel, tr1) =>
      let chosenPulls := sel.2
      if ¬ pyTruthyStr parsed.branch ∧ chosenPulls = [] then
        (.error (.panic ("When not using --branch, you must select PRs either using " ++
          "--interactive or by providing them using --pulls")), tr1)
      else if pyTruthyStr parsed.branch ∧ parsed.comment ∧ chosenPulls = [] then
        (.error (.panic ("When using --branch and --comment, you must select PRs to " ++
          "comment on either using --interactive or by providing them using --pulls")), tr1)
      else
        match gistStep w parsed chosenPulls with
        | (.error e, tr2) => (.error e, tr1 ++ tr2)
        | (.ok gistUrl, tr2) =>
          if ¬ parsed.build ∧ (parsed.colconBuildArgs ≠ "" ∨ parsed.colconTestArgs ≠ "" ∨
              parsed.cmakeArgs ≠ "") then
            (.error (.panic colconPanicMsg), tr1 ++ tr2)
          else
            let bt0 := (parsed.colconBuildArgs, parsed.colconTestArgs)
            let bt1 :=
              if pyTruthyList parsed.packages then
                applyPackages bt0.1 bt0.2 (parsed.packages.getD []) parsed.onlyFixesTest
              else bt0
            let bt2 :=
              if parsed.cmakeArgs ≠ "" then
                (bt1.1 ++ " --cmake-args " ++ parsed.cmakeArgs, bt1.2)
              else bt1
            if parsed.build then
              match run_jenkins_build w gistUrl parsed.branch parsed.target with
              | (.error e, tr3) => (.error e, tr1 ++ tr2 ++ [.getUser] ++ tr3)
              | (.ok _, tr3) =>
                (.ok (), tr1 ++ tr2 ++ [.getUser] ++ tr3 ++
                  comment_results parsed.comment chosenPulls)
            else
              let _ := bt2
              (.ok (), tr1 ++ tr2 ++ comment_results parsed.comment chosenPulls)

/-- The URL form of a pull-request identifier,
`https://github.com/<org>/<repo>/pull/<digits>`. -/
def urlForm (o r : String) (ds : List Char) : String :=
  "https://github.com/" ++ o ++ "/" ++ r ++ "/pull/" ++ ⟨ds⟩

/-- The `#` form of a pull-request identifier, `<org>/<repo>#<digits>`. -/
def hashForm (o r : String) (ds : List Char) : String :=
  o ++ "/" ++ r ++ "#" ++ ⟨ds⟩

/-- A concrete world for evaluating whole runs: one baseline repository, pull
requests from a fork `alice/rclpy`, a healthy Jenkins server. -/
def demoWorld : World where
  baseline := fun _ =>
    [("ros2/rclpy", ⟨"git", "https://github.com/ros2/rclpy.git", "master"⟩)]
  pullAt := fun r n => ⟨"fix-branch", "alice/rclpy", r, n⟩
  gistUrl := "https://gist.githubusercontent.com/alice/abc/raw/ros2.repos"
  userLogin := "alice"
  userPulls := []
  selection := ([], [])
  jobFetch := fun _ => .ok
  console := []

/-- A concrete environment providing only `GITHUB_ACCESS_TOKEN`. -/
def demoEnv : String → Option String :=
  fun v => if v = "GITHUB_ACCESS_TOKEN" then some "token123" else none

/-- A concrete command line: `--pulls ros2/rclpy#353 --colcon-build-args -j1`,
without `--build`. -/
def demoArgs : ParsedArgs where
  branch := none
  pulls := some ["ros2/rclpy#353"]
  interactive := false
  packages := none
  target := "rolling"
  build := false
  comment := false
  onlyFixesTest := false
  colconBuildArgs := "-j1"
  colconTestArgs := ""
  cmakeArgs := ""

/-- Auxiliary for reasoning about the regex model: whether the list contains a
`'/'` immediately followed by `'p'` — the only way an occurrence of the literal
`/pull/` can begin. -/
def hasSlashP : List Char → Bool
  | [] => false
  | [_] => false
  | a :: b :: rest => (a = '/' && b = 'p') || hasSlashP (b :: rest)

/-! Theorems.  Helper lemmas come first, then one theorem per claim (with a witness
when the theorem carries hypotheses). -/

theorem pyTruthyStr_some_ne {s : String} (h : s ≠ "") : pyTruthyStr (some s) = true := by
  simp [pyTruthyStr, h]

/-- C6: for every non-empty package list and initial build/test argument strings,
test-only mode appends `--packages-up-to`/`--packages-select` and default mode
appends `--packages-above-and-dependencies`/`--packages-above`, and for the same
package list the two modes produce different build strings and different test
strings (their flag sets are disjoint). -/
theorem packages_flags_correct (b t : String) (P : List String) (_hP : P ≠ []) :
    applyPackages b t P true =
      (b ++ " --packages-up-to " ++ String.intercalate " " P,
       t ++ " --packages-select " ++ String.intercalate " " P) ∧
    applyPackages b t P false =
      (b ++ " --packages-above-and-dependencies " ++ String.intercalate " " P,
       t ++ " --packages-above " ++ String.intercalate " " P) ∧
    (applyPackages b t P true).1 ≠ (applyPackages b t P false).1 ∧
    (applyPackages b t P true).2 ≠ (applyPackages b t P false).2 := by
  have l1 : (" --packages-up-to ").length = 18 := rfl
  have l2 : (" --packages-above-and-dependencies ").length = 35 := rfl
  have l3 : (" --packages-select ").length = 19 := rfl
  have l4 : (" --packages-above ").length = 18 := rfl
  refine ⟨rfl, rfl, ?_, ?_⟩ <;>
    · intro h
      have := congrArg String.length h
      simp [applyPackages, String.length_append, l1, l2, l3, l4] at this

theorem packages_flags_correct_witness :
    applyPackages "B" "T" ["rclpy"] true = ("B --packages-up-to rclpy", "T --packages-select rclpy") ∧
    (applyPackages "B" "T" ["rclpy"] true).1 ≠ (applyPackages "B" "T" ["rclpy"] false).1 := by
  have h := packages_flags_correct "B" "T" ["rclpy"] (by decide)
  exact ⟨h.1.trans (by decide), h.2.2.1⟩

/-- C10: in `main`'s credential lookup an empty environment value counts as unset:
the lookup fails exactly when both `GITHUB_ACCESS_TOKEN` and `GITHUB_TOKEN` are
unset or empty, a falsy `GITHUB_ACCESS_TOKEN` falls back to `GITHUB_TOKEN`, and a
successful lookup never returns the empty string. -/
theorem token_lookup_correct (env : String → Option String) :
    (tokenLookup env = .error (.panic tokenPanicMsg) ↔
      pyTruthyStr (env "GITHUB_ACCESS_TOKEN") = false ∧
      pyTruthyStr (env "GITHUB_TOKEN") = false) ∧
    (∀ s, tokenLookup env = .ok s → s ≠ "") ∧
    (pyTruthyStr (env "GITHUB_ACCESS_TOKEN") = false →
      tokenLookup env =
        if pyTruthyStr (env "GITHUB_TOKEN") then .ok ((env "GITHUB_TOKEN").getD "")
        else .error (.panic tokenPanicMsg)) := by
  refine ⟨?_, ?_, ?_⟩
  · unfold tokenLookup
    rcases h1 : pyTruthyStr (env "GITHUB_ACCESS_TOKEN") with _ | _ <;>
      rcases h2 : pyTruthyStr (env "GITHUB_TOKEN") with _ | _ <;>
        simp [h1, h2]
  · intro s hs
    unfold tokenLookup at hs
    rcases h1 : pyTruthyStr (env "GITHUB_ACCESS_TOKEN") with _ | _
    · rcases h2 : pyTruthyStr (env "GITHUB_TOKEN") with _ | _
      · simp [h1, h2] at hs
      · simp [h1, h2] at hs
        rcases h3 : env "GITHUB_TOKEN" with _ | v
        · rw [h3] at h2; simp [pyTruthyStr] at h2
        · rw [h3] at h2 hs
          simp [pyTruthyStr] at h2
          simpa [← hs] using h2
    · simp [h1] at hs
      rcases h3 : env "GITHUB_ACCESS_TOKEN" with _ | v
      · rw [h3] at h1; simp [pyTruthyStr] at h1
      · rw [h3] at h1 hs
        simp [pyTruthyStr] at h1
        simpa [← hs] using h1
  · intro h1
    unfold tokenLookup
    simp [h1]

theorem token_lookup_correct_witness :
    tokenLookup (fun _ => some "") = .error (.panic tokenPanicMsg) :=
  (token_lookup_correct (fun _ => some "")).1.mpr ⟨by decide, by decide⟩

theorem fetchJobLoop_attempts_lower (server : Nat → Outcome) :
    ∀ r a, a + 1 ≤ (fetchJobLoop server r a).2 := by
  intro r
  induction r with
  | zero => intro a; unfold fetchJobLoop; cases server a <;> simp
  | succ r ih =>
    intro a
    unfold fetchJobLoop
    cases server a
    · show a + 1 ≤ a + 1; omega
    · show a + 1 ≤ (fetchJobLoop server r (a + 1)).2
      have := ih (a + 1); omega
    · show a + 1 ≤ a + 1; omega

theorem fetchJobLoop_attempts_upper (server : Nat → Outcome) :
    ∀ r a, (fetchJobLoop server r a).2 ≤ a + r + 1 := by
  intro r
  induction r with
  | zero => intro a; unfold fetchJobLoop; cases server a <;> simp
  | succ r ih =>
    intro a
    unfold fetchJobLoop
    cases server a
    · show a + 1 ≤ a + (r + 1) + 1; omega
    · show (fetchJobLoop server r (a + 1)).2 ≤ a + (r + 1) + 1
      have := ih (a + 1); omega
    · show a + 1 ≤ a + (r + 1) + 1; omega

theorem fetchJobLoop_prior_conn (server : Nat → Outcome) :
    ∀ r a i, a ≤ i → i + 1 < (fetchJobLoop server r a).2 → server i = .connErr := by
  intro r
  induction r with
  | zero =>
    intro a i hai hi
    unfold fetchJobLoop at hi
    cases h : server a <;> rw [h] at hi <;> simp at hi <;> exact absurd hi (by omega)
  | succ r ih =>
    intro a i hai hi
    unfold fetchJobLoop at hi
    cases h : server a <;> rw [h] at hi <;> simp at hi
    · exact absurd hi (by omega)
    · rcases Nat.eq_or_lt_of_le hai with rfl | hlt
      · exact h
      · exact ih (a + 1) i hlt hi
    · exact absurd hi (by omega)

theorem fetchJobLoop_all_conn (server : Nat → Outcome) :
    ∀ r a, (∀ i, a ≤ i → i < a + r + 1 → server i = .connErr) →
      fetchJobLoop server r a = (.connErrRaised, a + r + 1) := by
  intro r
  induction r with
  | zero =>
    intro a h
    unfold fetchJobLoop
    rw [h a (le_refl a) (by omega)]
  | succ r ih =>
    intro a h
    unfold fetchJobLoop
    rw [h a (le_refl a) (by omega)]
    show fetchJobLoop server r (a + 1) = (.connErrRaised, a + (r + 1) + 1)
    have e : a + (r + 1) + 1 = (a + 1) + r + 1 := by omega
    rw [e]
    exact ih (a + 1) (fun i h1 h2 => h i (by omega) (by omega))

theorem fetchJobLoop_other_at (server : Nat → Outcome) :
    ∀ r a i, a ≤ i → i < (fetchJobLoop server r a).2 → server i = .otherErr →
      fetchJobLoop server r a = (.otherRaised, i + 1) := by
  intro r
  induction r with
  | zero =>
    intro a i hai hi hoth
    unfold fetchJobLoop at hi ⊢
    cases h : server a <;> rw [h] at hi <;> simp at hi
    · have hia : i = a := by omega
      subst hia
      rw [h] at hoth
      exact absurd hoth (by simp)
    · have hia : i = a := by omega
      subst hia
      rw [h] at hoth
      exact absurd hoth (by simp)
    · have hia : i = a := by omega
      subst hia
      rfl
  | succ r ih =>
    intro a i hai hi hoth
    unfold fetchJobLoop at hi ⊢
    cases h : server a <;> rw [h] at hi <;> simp at hi
    · have hia : i = a := by omega
      subst hia
      rw [h] at hoth
      exact absurd hoth (by simp)
    · rcases Nat.eq_or_lt_of_le hai with rfl | hlt
      · rw [h] at hoth; exact absurd hoth (by simp)
      · exact ih (a + 1) i hlt hi hoth
    · have hia : i = a := by omega
      subst hia
      rfl

/-- C7: fetching the build job's parameter schema is attempted at most 3 times
(`SERVER_RETRIES = 2` retries); every attempt before the last was a connection
error (nothing else is retried); three consecutive connection errors exhaust the
retries and the connection error propagates; a non-connection failure on the first
attempt propagates immediately after that single attempt. -/
theorem job_fetch_retry_policy (server : Nat → Outcome) :
    (fetchJob server).2 ≤ 3 ∧
    (∀ i, i + 1 < (fetchJob server).2 → server i = .connErr) ∧
    ((∀ i, i < 3 → server i = .connErr) → fetchJob server = (.connErrRaised, 3)) ∧
    (server 0 = .otherErr → fetchJob server = (.otherRaised, 1)) := by
  refine ⟨?_, ?_, ?_, ?_⟩
  · have := fetchJobLoop_attempts_upper server SERVER_RETRIES 0
    simpa [fetchJob, SERVER_RETRIES] using this
  · intro i hi
    exact fetchJobLoop_prior_conn server SERVER_RETRIES 0 i (Nat.zero_le i) hi
  · intro h
    have := fetchJobLoop_all_conn server SERVER_RETRIES 0
      (fun i _ h2 => h i (by simpa [SERVER_RETRIES] using h2))
    simpa [fetchJob, SERVER_RETRIES] using this
  · intro h
    have h1 := fetchJobLoop_attempts_lower server SERVER_RETRIES 0
    exact fetchJobLoop_other_at server SERVER_RETRIES 0 0 (le_refl 0) (by omega) h

theorem job_fetch_retry_policy_witness :
    fetchJob (fun _ => .connErr) = (.connErrRaised, 3) :=
  (job_fetch_retry_policy (fun _ => .connErr)).2.2.1 (fun _ _ => rfl)

/-- C5: a release target missing from either static distro table makes
`run_jenkins_build` fail with the `KeyError` of the failed lookup while the trace
of outward calls is still empty — in particular before the Jenkins connection is
opened.  (The gist-URL/branch precondition keeps the earlier `assert` of line 250
from firing first.) -/
theorem unknown_release_fails_before_connect (w : World)
    (gistUrl branchName : Option String) (target : String)
    (hsel : pyTruthyStr gistUrl = true ∨ pyTruthyStr branchName = true)
    (habs : ROS_DISTRO_TO_UBUNTU_DISTRO.lookup target = none ∨
            ROS_DISTRO_TO_RHEL_DISTRO.lookup target = none) :
    (∃ k, run_jenkins_build w gistUrl branchName target = (.error (.keyError k), [])) := by
  unfold run_jenkins_build
  have hsel' : (pyTruthyStr gistUrl || pyTruthyStr branchName) = true := by
    rcases hsel with h | h <;> simp [h]
  rw [hsel']
  simp only [Bool.true_eq_false, not_true_eq_false, if_false]
  rcases h1 : ROS_DISTRO_TO_UBUNTU_DISTRO.lookup target with _ | u
  · exact ⟨target, by simp [pyIndex, h1]⟩
  · rcases habs with h | h
    · rw [h1] at h; cases h
    · exact ⟨target, by simp [pyIndex, h1, h]⟩

theorem unknown_release_fails_before_connect_witness :
    ∃ k, run_jenkins_build demoWorld (some "https://gist.io/x") none "unknown-distro" =
      (.error (.keyError k), []) :=
  unknown_release_fails_before_connect demoWorld (some "https://gist.io/x") none
    "unknown-distro" (Or.inl (by decide)) (Or.inl (by decide))

/-- C3: evaluation of `validate_and_fetch_pull_list`'s parsing on the claim's
inputs.  A non-URL identifier with zero (or two) `#` characters panics with the
format error, as the claim says; but an identifier with exactly one `#` and a
non-integer number part fails with an uncaught `ValueError` from `int`, NOT with
the fatal pull-request-number panic the claim describes: the `except TypeError`
clause of lines 193-196 can never catch the `ValueError` that `int` raises for a
malformed `str`, so the `panic("Pull request number ...")` report is dead code. -/
theorem pull_number_parse_bug :
    validatePullList ["ros2/rclpy"] =
      .error (.panic ("Pull request descriptor doesn't match org/repo#number format: " ++
        "ros2/rclpy")) ∧
    validatePullList ["ros2/rclpy#1#2"] =
      .error (.panic ("Pull request descriptor doesn't match org/repo#number format: " ++
        "ros2/rclpy#1#2")) ∧
    validatePullList ["ros2/rclpy#abc"] = .error .valueError ∧
    (∀ msg, Err.valueError ≠ .panic msg) := by
  refine ⟨rfl, rfl, rfl, fun msg h => by cases h⟩

theorem validateLoop_dup :
    ∀ (ps : List String) (rs acc : List (String × Int)),
      ps.map resolveOne = rs.map Except.ok →
      ¬ ((acc ++ rs).map Prod.fst).Nodup →
      (acc.map Prod.fst).Nodup →
      ∃ r, validateLoop acc ps = .error (.panic (dupMsg r)) := by
  intro ps
  induction ps with
  | nil =>
    intro rs acc hmap hdup hacc
    have : rs = [] := by
      cases rs with
      | nil => rfl
      | cons a l => simp at hmap
    subst this
    simp at hdup
    exact absurd hacc hdup
  | cons p ps' ih =>
    intro rs acc hmap hdup hacc
    cases rs with
    | nil => simp at hmap
    | cons rn rs' =>
      simp only [List.map_cons, List.cons.injEq] at hmap
      obtain ⟨hres, hmap'⟩ := hmap
      unfold validateLoop
      rw [hres]
      by_cases hany : acc.any (fun e => e.1 = rn.1)
      · exact ⟨rn.1, by simp [hany]⟩
      · simp only [hany, Bool.false_eq_true, if_false]
        refine ih rs' (acc ++ [rn]) hmap' ?_ ?_
        · have : (acc ++ [rn]) ++ rs' = acc ++ rn :: rs' := by simp
          rw [this]
          exact hdup
        · simp only [List.any_eq_true, decide_eq_true_eq] at hany
          push_neg at hany
          simp only [List.map_append, List.map_cons, List.map_nil]
          rw [List.nodup_append]
          refine ⟨hacc, List.nodup_singleton _, ?_⟩
          intro x hx hx1
          simp at hx1
          subst hx1
          obtain ⟨e, he, hfst⟩ := List.mem_map.mp hx
          exact hany e he hfst

theorem mergePulls_error_is_nongit :
    ∀ (prs : List PullRequest) (M : Manifest) (e : Err),
      mergePulls M prs = .error e → e = .panic "Chosen repository is not git-based" := by
  intro prs
  induction prs with
  | nil => intro M e h; simp [mergePulls] at h
  | cons pr rest ih =>
    intro M e h
    unfold mergePulls at h
    unfold mergeStep at h
    rcases hp : dictPop M pr.baseRepo with ⟨_ | ent, m'⟩ <;> rw [hp] at h <;> simp only [] at h
    · exact ih _ _ h
    · by_cases ht : ent.type = "git"
      · rw [if_neg (by simpa using ht)] at h
        exact ih _ _ h
      · rw [if_pos (by simpa using ht)] at h
        cases h
        rfl

/-- C2: a duplicated base repository among the pull-request identifiers always
makes `validate_and_fetch_pull_list` panic with the duplicate-repository error —
but, contrary to the claim, `create_ci_gist` itself performs no such check: the
only fatal error its merge loop can raise is the non-git-entry panic, so a
duplicate base reaching the merge directly (e.g. via interactive selection) is
processed silently (the second pop finds nothing and only logs a warning). -/
theorem duplicate_base_policy (ps : List String) (rs : List (String × Int))
    (hmap : ps.map resolveOne = rs.map Except.ok)
    (hdup : ¬ (rs.map Prod.fst).Nodup) :
    (∃ r, validatePullList ps = .error (.panic (dupMsg r))) ∧
    (∀ (M : Manifest) (prs : List PullRequest) (e : Err),
      mergePulls M prs = .error e → e = .panic "Chosen repository is not git-based") := by
  constructor
  · exact validateLoop_dup ps rs [] hmap (by simpa using hdup) (by simp)
  · intro M prs e h
    exact mergePulls_error_is_nongit prs M e h

theorem duplicate_base_policy_witness :
    ∃ r, validatePullList ["ros2/rclpy#1", "ros2/rclpy#2"] = .error (.panic (dupMsg r)) :=
  (duplicate_base_policy ["ros2/rclpy#1", "ros2/rclpy#2"]
    [("ros2/rclpy", 1), ("ros2/rclpy", 2)] rfl (by decide)).1

/-- C2 counterexample: the claim asserts that a duplicate base repository among
the overrides consumed by `create_ci_gist` raises a fatal error; on this concrete
input (two overrides with base `ros2/rclpy`) the merge loop instead succeeds,
keeping both head entries. -/
theorem duplicate_base_policy_cex :
    mergePulls
      [("ros2/rclpy", ⟨"git", "https://github.com/ros2/rclpy.git", "master"⟩)]
      [⟨"f1", "alice/rclpy", "ros2/rclpy", 1⟩, ⟨"f2", "bob/rclpy", "ros2/rclpy", 2⟩] =
    .ok [("alice/rclpy", ⟨"git", "https://github.com/alice/rclpy.git", "f1"⟩),
         ("bob/rclpy", ⟨"git", "https://github.com/bob/rclpy.git", "f2"⟩)] := rfl

theorem dictPop_not_mem (m : Manifest) (k : String) (h : k ∉ manifestKeys m) :
    dictPop m k = (none, m) := by
  induction m with
  | nil => rfl
  | cons p rest ih =>
    simp only [manifestKeys, List.map_cons, List.mem_cons, not_or] at h
    unfold dictPop
    rw [if_neg (fun hh => h.1 hh.symm)]
    rw [ih (by simpa [manifestKeys] using h.2)]

theorem dictPop_fst_mem (m : Manifest) (k : String) (e : RepoEntry)
    (h : (dictPop m k).1 = some e) : (k, e) ∈ m := by
  induction m with
  | nil => simp [dictPop] at h
  | cons p rest ih =>
    unfold dictPop at h
    by_cases hk : p.1 = k
    · rw [if_pos hk] at h
      simp at h
      have hpe : p = (k, e) := Prod.ext hk h
      rw [← hpe]
      exact List.mem_cons_self _ _
    · rw [if_neg hk] at h
      simp only [] at h
      exact List.mem_cons_of_mem _ (ih h)

theorem filter_ne_of_not_mem (m : Manifest) (k : String) (h : k ∉ manifestKeys m) :
    m.filter (fun p => decide (p.1 ≠ k)) = m := by
  induction m with
  | nil => rfl
  | cons p rest ih =>
    simp only [manifestKeys, List.map_cons, List.mem_cons, not_or] at h
    rw [List.filter_cons_of_pos]
    · rw [ih (by simpa [manifestKeys] using h.2)]
    · simp only [decide_eq_true_eq]
      exact fun hh => h.1 hh.symm

theorem dictPop_snd_filter (m : Manifest) (k : String) (h : (manifestKeys m).Nodup) :
    (dictPop m k).2 = m.filter (fun p => decide (p.1 ≠ k)) := by
  induction m with
  | nil => rfl
  | cons p rest ih =>
    simp only [manifestKeys, List.map_cons, List.nodup_cons] at h
    unfold dictPop
    by_cases hk : p.1 = k
    · rw [if_pos hk]
      rw [List.filter_cons_of_neg (by simp [hk])]
      subst hk
      exact (filter_ne_of_not_mem rest p.1 (by simpa [manifestKeys] using h.1)).symm
    · rw [if_neg hk]
      simp only []
      rw [List.filter_cons_of_pos (by simp only [decide_eq_true_eq]; exact hk)]
      rw [ih (by simpa [manifestKeys] using h.2)]

theorem dictSet_not_mem (m : Manifest) (k : String) (v : RepoEntry)
    (h : k ∉ manifestKeys m) : dictSet m k v = m ++ [(k, v)] := by
  induction m with
  | nil => rfl
  | cons p rest ih =>
    simp only [manifestKeys, List.map_cons, List.mem_cons, not_or] at h
    unfold dictSet
    rw [if_neg (fun hh => h.1 hh.symm)]
    rw [ih (by simpa [manifestKeys] using h.2)]
    rfl

theorem manifestKeys_filter_sublist (m : Manifest) (f : String × RepoEntry → Bool) :
    (manifestKeys (m.filter f)).Sublist (manifestKeys m) :=
  (m.filter_sublist).map Prod.fst

theorem mem_keys_iff (m : Manifest) (k : String) :
    k ∈ manifestKeys m ↔ ∃ e, (k, e) ∈ m := by
  constructor
  · intro h
    obtain ⟨p, hp, hfst⟩ := List.mem_map.mp h
    exact ⟨p.2, by rwa [show (k, p.2) = p from Prod.ext hfst.symm rfl]⟩
  · rintro ⟨e, he⟩
    exact List.mem_map.mpr ⟨(k, e), he, rfl⟩

theorem head_not_in_filtered (M : Manifest) (pr : PullRequest)
    (hfresh : pr.headRepo ∈ manifestKeys M → pr.headRepo = pr.baseRepo) :
    pr.headRepo ∉ manifestKeys (M.filter (fun p => decide (p.1 ≠ pr.baseRepo))) := by
  intro hmem
  obtain ⟨e, he⟩ := (mem_keys_iff _ _).mp hmem
  have hin := List.mem_filter.mp he
  have h2 : pr.headRepo ≠ pr.baseRepo := by simpa using hin.2
  exact h2 (hfresh ((mem_keys_iff _ _).mpr ⟨e, hin.1⟩))

theorem mergeStep_ok (M : Manifest) (pr : PullRequest)
    (hkeys : (manifestKeys M).Nodup)
    (hgit : ∀ e : RepoEntry, (pr.baseRepo, e) ∈ M → e.type = "git")
    (hfresh : pr.headRepo ∈ manifestKeys M → pr.headRepo = pr.baseRepo) :
    mergeStep M pr =
      .ok (M.filter (fun p => decide (p.1 ≠ pr.baseRepo)) ++ [(pr.headRepo, prEntry pr)]) := by
  unfold mergeStep
  rcases hp : dictPop M pr.baseRepo with ⟨res, m'⟩
  have hm' : m' = M.filter (fun p => decide (p.1 ≠ pr.baseRepo)) := by
    have hh := dictPop_snd_filter M pr.baseRepo hkeys
    rw [hp] at hh
    exact hh
  have hhead : pr.headRepo ∉ manifestKeys m' := by
    rw [hm']
    exact head_not_in_filtered M pr hfresh
  rcases res with _ | ent
  · simp only []
    rw [dictSet_not_mem m' _ _ hhead, hm']
  · have hfst : (dictPop M pr.baseRepo).1 = some ent := by rw [hp]
    have hgit2 : ent.type = "git" := hgit ent (dictPop_fst_mem M _ _ hfst)
    simp only []
    rw [if_neg (fun hne => hne hgit2)]
    rw [dictSet_not_mem m' _ _ hhead, hm']

/-- C1 (amended): for a baseline whose keys are unique and overrides whose base
repository names are pairwise distinct, and additionally (forced by the
counterexample): every override whose base is present in the baseline finds a
`git`-typed entry there, the overrides' head repository names are pairwise
distinct, a head name present among the baseline keys is the override's own base
name, and no override's head name is another override's base name — the merge
yields exactly the baseline minus the overridden base entries (in baseline order)
followed by one `git` entry per override, keyed by head repository, with URL
`https://github.com/<head>.git` and version the head ref, in override order. -/
theorem merge_manifest_correct :
    ∀ (prs : List PullRequest) (M : Manifest),
      (manifestKeys M).Nodup →
      (prs.map PullRequest.baseRepo).Nodup →
      (∀ pr ∈ prs, ∀ e : RepoEntry, (pr.baseRepo, e) ∈ M → e.type = "git") →
      (prs.map PullRequest.headRepo).Nodup →
      (∀ pr ∈ prs, pr.headRepo ∈ manifestKeys M → pr.headRepo = pr.baseRepo) →
      (∀ pr ∈ prs, ∀ pr' ∈ prs, pr.headRepo = pr'.baseRepo → pr = pr') →
      mergePulls M prs =
        .ok (M.filter (fun p => decide (p.1 ∉ prs.map PullRequest.baseRepo)) ++
             prs.map (fun pr => (pr.headRepo, prEntry pr))) := by
  intro prs
  induction prs with
  | nil =>
    intro M _ _ _ _ _ _
    rw [List.filter_eq_self.mpr (by intro a _; simp)]
    simp [mergePulls]
  | cons pr rest ih =>
    intro M hkeys hbases hgit hheads hfresh hcross
    simp only [List.map_cons, List.nodup_cons] at hbases hheads
    obtain ⟨hb0, hbrest⟩ := hbases
    obtain ⟨hh0, hhrest⟩ := hheads
    have hstep := mergeStep_ok M pr hkeys
      (fun e he => hgit pr (List.mem_cons_self _ _) e he)
      (fun hm => hfresh pr (List.mem_cons_self _ _) hm)
    unfold mergePulls
    rw [hstep]
    simp only []
    have hfilsub : (manifestKeys (M.filter (fun p => decide (p.1 ≠ pr.baseRepo)))).Sublist
        (manifestKeys M) := manifestKeys_filter_sublist M _
    have hheadfil : pr.headRepo ∉ manifestKeys (M.filter (fun p => decide (p.1 ≠ pr.baseRepo))) :=
      head_not_in_filtered M pr (fun hm => hfresh pr (List.mem_cons_self _ _) hm)
    have hkeys1 : (manifestKeys
        (M.filter (fun p => decide (p.1 ≠ pr.baseRepo)) ++ [(pr.headRepo, prEntry pr)])).Nodup := by
      simp only [manifestKeys, List.map_append, List.map_cons, List.map_nil]
      rw [List.nodup_append]
      refine ⟨hfilsub.nodup hkeys, List.nodup_singleton _, ?_⟩
      intro x hx hx1
      simp at hx1
      subst hx1
      exact hheadfil hx
    have hgit1 : ∀ pr' ∈ rest, ∀ e : RepoEntry,
        (pr'.baseRepo, e) ∈ M.filter (fun p => decide (p.1 ≠ pr.baseRepo)) ++
          [(pr.headRepo, prEntry pr)] → e.type = "git" := by
      intro pr' h' e he
      rcases List.mem_append.mp he with hl | hr
      · exact hgit pr' (List.mem_cons_of_mem _ h') e (List.mem_filter.mp hl).1
      · simp at hr
        rw [hr.2]
        rfl
    have hfresh1 : ∀ pr' ∈ rest,
        pr'.headRepo ∈ manifestKeys (M.filter (fun p => decide (p.1 ≠ pr.baseRepo)) ++
          [(pr.headRepo, prEntry pr)]) → pr'.headRepo = pr'.baseRepo := by
      intro pr' h' hmem
      simp only [manifestKeys, List.map_append, List.map_cons, List.map_nil] at hmem
      rcases List.mem_append.mp hmem with hl | hr
      · exact hfresh pr' (List.mem_cons_of_mem _ h') (hfilsub.subset hl)
      · simp at hr
        exact absurd (List.mem_map.mpr ⟨pr', h', hr⟩) hh0
    have hcross1 : ∀ pr' ∈ rest, ∀ pr'' ∈ rest, pr'.headRepo = pr''.baseRepo → pr' = pr'' :=
      fun pr' h' pr'' h'' hh =>
        hcross pr' (List.mem_cons_of_mem _ h') pr'' (List.mem_cons_of_mem _ h'') hh
    rw [ih _ hkeys1 hbrest hgit1 hhrest hfresh1 hcross1]
    have hheadbase : pr.headRepo ∉ rest.map PullRequest.baseRepo := by
      intro hmem
      obtain ⟨pr', h', heq⟩ := List.mem_map.mp hmem
      have hpe : pr = pr' :=
        hcross pr (List.mem_cons_self _ _) pr' (List.mem_cons_of_mem _ h') heq.symm
      exact hb0 (List.mem_map.mpr ⟨pr', h', by rw [← hpe]⟩)
    rw [List.filter_append]
    rw [show ([(pr.headRepo, prEntry pr)].filter
        (fun p => decide (p.1 ∉ rest.map PullRequest.baseRepo))) =
        [(pr.headRepo, prEntry pr)] from List.filter_cons_of_pos (by simpa using hheadbase)]
    rw [List.filter_filter]
    have hpred : ∀ x ∈ M,
        ((decide (x.1 ∉ rest.map PullRequest.baseRepo)) &&
          (decide (x.1 ≠ pr.baseRepo))) =
        decide (x.1 ∉ pr.baseRepo :: rest.map PullRequest.baseRepo) := by
      intro x _
      by_cases h1 : x.1 = pr.baseRepo
      · simp [h1]
      · by_cases h2 : x.1 ∈ rest.map PullRequest.baseRepo <;> simp [h1, h2]
    rw [List.filter_congr hpred]
    simp

/-- C1 counterexample: baseline `{"ros2/rclpy": {type: "tar", ...}}` with the
single override (base `ros2/rclpy`, head `alice/rclpy`, ref `fix-branch`) — base
names trivially pairwise distinct — does not produce a manifest at all: the merge
panics on the non-git baseline entry, so the claim's universally quantified
statement fails at this input. -/
theorem merge_manifest_correct_cex :
    mergePulls [("ros2/rclpy", ⟨"tar", "https://example.com/rclpy.tar", "1.0"⟩)]
      [⟨"fix-branch", "alice/rclpy", "ros2/rclpy", 353⟩] =
    .error (.panic "Chosen repository is not git-based") := rfl

theorem merge_manifest_correct_witness :
    mergePulls [("ros2/rclpy", ⟨"git", "https://github.com/ros2/rclpy.git", "master"⟩)]
      [⟨"fix-branch", "alice/rclpy", "ros2/rclpy", 353⟩] =
    .ok [("alice/rclpy", ⟨"git", "https://github.com/alice/rclpy.git", "fix-branch"⟩)] := by
  have h := merge_manifest_correct [⟨"fix-branch", "alice/rclpy", "ros2/rclpy", 353⟩]
    [("ros2/rclpy", ⟨"git", "https://github.com/ros2/rclpy.git", "master"⟩)]
    (by decide) (by decide)
    (by
      intro pr hpr e he
      simp at hpr
      subst hpr
      simp at he
      simp [he])
    (by decide) (by decide) (by decide)
  exact h.trans rfl

theorem keys_nodup_unique (m : Manifest) (h : (manifestKeys m).Nodup) (k : String)
    (e e' : RepoEntry) : (k, e) ∈ m → (k, e') ∈ m → e = e' := by
  induction m with
  | nil => intro h1; simp at h1
  | cons p rest ih =>
    intro h1 h2
    simp only [manifestKeys, List.map_cons, List.nodup_cons] at h
    rcases List.mem_cons.mp h1 with he1 | ht1 <;> rcases List.mem_cons.mp h2 with he2 | ht2
    · rw [← he1] at he2
      exact (congrArg Prod.snd he2).symm
    · exfalso
      have hk : k = p.1 := congrArg Prod.fst he1
      apply h.1
      rw [← hk]
      exact (mem_keys_iff rest k).mpr ⟨e', ht2⟩
    · exfalso
      have hk : k = p.1 := congrArg Prod.fst he2
      apply h.1
      rw [← hk]
      exact (mem_keys_iff rest k).mpr ⟨e, ht1⟩
    · exact ih (by simpa [manifestKeys] using h.2) ht1 ht2

theorem dictPop_fst_of_mem (m : Manifest) (k : String) (h : k ∈ manifestKeys m) :
    ∃ e, (dictPop m k).1 = some e := by
  induction m with
  | nil => simp [manifestKeys] at h
  | cons p rest ih =>
    unfold dictPop
    by_cases hk : p.1 = k
    · rw [if_pos hk]; exact ⟨p.2, rfl⟩
    · rw [if_neg hk]
      simp only [manifestKeys, List.map_cons, List.mem_cons] at h
      rcases h with h | h
      · exact absurd h.symm hk
      · exact ih (by simpa [manifestKeys] using h)

/-- C8 (amended): under unique baseline keys, pairwise-distinct override head
names, and head names that only collide with the baseline at their own base entry
(without which an override's head insertion can replace a non-git baseline entry
before it is popped), the merge loop fails exactly when some override's base
repository has a non-git-typed entry in the baseline; and an override whose base
repository is absent from the manifest never fails — its step just inserts the
head entry (the absence is only logged as a warning). -/
theorem merge_error_policy :
    (∀ (prs : List PullRequest) (M : Manifest),
      (manifestKeys M).Nodup →
      (prs.map PullRequest.headRepo).Nodup →
      (∀ pr ∈ prs, pr.headRepo ∈ manifestKeys M → pr.headRepo = pr.baseRepo) →
      ((∃ e, mergePulls M prs = .error e) ↔
        ∃ pr ∈ prs, ∃ en : RepoEntry, (pr.baseRepo, en) ∈ M ∧ en.type ≠ "git")) ∧
    (∀ (M : Manifest) (pr : PullRequest), pr.baseRepo ∉ manifestKeys M →
      mergeStep M pr = .ok (dictSet M pr.headRepo (prEntry pr))) := by
  constructor
  · intro prs
    induction prs with
    | nil =>
      intro M _ _ _
      simp [mergePulls]
    | cons pr rest ih =>
      intro M hkeys hheads hfresh
      simp only [List.map_cons, List.nodup_cons] at hheads
      obtain ⟨hh0, hhrest⟩ := hheads
      by_cases hbad : ∃ en : RepoEntry, (pr.baseRepo, en) ∈ M ∧ en.type ≠ "git"
      · obtain ⟨en, henM, hnen⟩ := hbad
        have hmem : pr.baseRepo ∈ manifestKeys M := (mem_keys_iff _ _).mpr ⟨en, henM⟩
        obtain ⟨e0, he0⟩ := dictPop_fst_of_mem M pr.baseRepo hmem
        have he0M : (pr.baseRepo, e0) ∈ M := dictPop_fst_mem M _ _ he0
        have heq : e0 = en := keys_nodup_unique M hkeys _ _ _ he0M henM
        subst heq
        have hstep : mergeStep M pr = .error (.panic "Chosen repository is not git-based") := by
          unfold mergeStep
          rw [show dictPop M pr.baseRepo = (some e0, (dictPop M pr.baseRepo).2) from
            Prod.ext he0 rfl]
          simp only []
          rw [if_pos hnen]
        have hrun : mergePulls M (pr :: rest) =
            .error (.panic "Chosen repository is not git-based") := by
          unfold mergePulls
          rw [hstep]
        refine iff_of_true ⟨_, hrun⟩ ⟨pr, List.mem_cons_self _ _, e0, he0M, hnen⟩
      · have hgitpr : ∀ en : RepoEntry, (pr.baseRepo, en) ∈ M → en.type = "git" := by
          intro en hmem
          by_contra hne
          exact hbad ⟨en, hmem, hne⟩
        have hstep := mergeStep_ok M pr hkeys hgitpr (hfresh pr (List.mem_cons_self _ _))
        have hrun : mergePulls M (pr :: rest) =
            mergePulls (M.filter (fun p => decide (p.1 ≠ pr.baseRepo)) ++
              [(pr.headRepo, prEntry pr)]) rest := by
          show (match mergeStep M pr with
            | .ok m' => mergePulls m' rest
            | .error e => .error e) = _
          rw [hstep]
        rw [hrun]
        have hfilsub : (manifestKeys (M.filter (fun p => decide (p.1 ≠ pr.baseRepo)))).Sublist
            (manifestKeys M) := manifestKeys_filter_sublist M _
        have hheadfil : pr.headRepo ∉
            manifestKeys (M.filter (fun p => decide (p.1 ≠ pr.baseRepo))) :=
          head_not_in_filtered M pr (hfresh pr (List.mem_cons_self _ _))
        have hkeys1 : (manifestKeys (M.filter (fun p => decide (p.1 ≠ pr.baseRepo)) ++
            [(pr.headRepo, prEntry pr)])).Nodup := by
          simp only [manifestKeys, List.map_append, List.map_cons, List.map_nil]
          rw [List.nodup_append]
          refine ⟨hfilsub.nodup hkeys, List.nodup_singleton _, ?_⟩
          intro x hx hx1
          simp at hx1
          subst hx1
          exact hheadfil hx
        have hfresh1 : ∀ pr' ∈ rest,
            pr'.headRepo ∈ manifestKeys (M.filter (fun p => decide (p.1 ≠ pr.baseRepo)) ++
              [(pr.headRepo, prEntry pr)]) → pr'.headRepo = pr'.baseRepo := by
          intro pr' h' hmem
          simp only [manifestKeys, List.map_append, List.map_cons, List.map_nil] at hmem
          rcases List.mem_append.mp hmem with hl | hr
          · exact hfresh pr' (List.mem_cons_of_mem _ h') (hfilsub.subset hl)
          · simp at hr
            exact absurd (List.mem_map.mpr ⟨pr', h', hr⟩) hh0
        rw [ih _ hkeys1 hhrest hfresh1]
        have htrans : ∀ pr' ∈ rest, ∀ en : RepoEntry,
            ((pr'.baseRepo, en) ∈ M.filter (fun p => decide (p.1 ≠ pr.baseRepo)) ++
              [(pr.headRepo, prEntry pr)] ∧ en.type ≠ "git") ↔
            ((pr'.baseRepo, en) ∈ M ∧ en.type ≠ "git") := by
          intro pr' _ en
          constructor
          · rintro ⟨hin, hne⟩
            rcases List.mem_append.mp hin with hl | hr
            · exact ⟨(List.mem_filter.mp hl).1, hne⟩
            · simp at hr
              exact absurd (by rw [hr.2]; rfl) hne
          · rintro ⟨hin, hne⟩
            refine ⟨List.mem_append.mpr (Or.inl ?_), hne⟩
            rw [List.mem_filter]
            refine ⟨hin, ?_⟩
            simp only [decide_eq_true_eq]
            intro hbb
            exact hne (hgitpr en (by rwa [hbb] at hin))
        constructor
        · rintro ⟨pr', h', en, hin, hne⟩
          exact ⟨pr', List.mem_cons_of_mem _ h', en, ((htrans pr' h' en).mp ⟨hin, hne⟩)⟩
        · rintro ⟨pr', h', en, hin, hne⟩
          rcases List.mem_cons.mp h' with rfl | h'
          · exact absurd ⟨en, hin, hne⟩ hbad
          · obtain ⟨hin1, hne1⟩ := (htrans pr' h' en).mpr ⟨hin, hne⟩
            exact ⟨pr', h', en, hin1, hne1⟩
  · intro M pr h
    unfold mergeStep
    rw [dictPop_not_mem M pr.baseRepo h]

/-- C8 counterexample: override 1 (base `x/y` absent, head `a/b`) silently
replaces the baseline's non-git `a/b` entry with a git entry; override 2 (base
`a/b`, which the baseline holds with type `hg`) then pops that replacement and the
merge succeeds — although an override's base repository (`a/b`) is present in the
baseline with a non-git type, which the claim says must fail fatally. -/
theorem merge_error_policy_cex :
    mergePulls [("a/b", ⟨"hg", "https://example.com/ab", "tip"⟩)]
      [⟨"r1", "a/b", "x/y", 1⟩, ⟨"r2", "c/d", "a/b", 2⟩] =
    .ok [("c/d", ⟨"git", "https://github.com/c/d.git", "r2"⟩)] := rfl

theorem merge_error_policy_witness :
    mergeStep [("x/y", ⟨"git", "https://github.com/x/y.git", "main"⟩)]
      ⟨"fix", "alice/absent", "ros2/absent", 7⟩ =
    .ok [("x/y", ⟨"git", "https://github.com/x/y.git", "main"⟩),
         ("alice/absent", ⟨"git", "https://github.com/alice/absent.git", "fix"⟩)] :=
  (merge_error_policy.2 [("x/y", ⟨"git", "https://github.com/x/y.git", "main"⟩)]
    ⟨"fix", "alice/absent", "ros2/absent", 7⟩ (by decide)).trans rfl

theorem fetchResolved_no_jenkins (w : World) :
    ∀ rns : List (String × Int), NetAction.connectJenkins ∉ (fetchResolved w rns).2 := by
  intro rns
  induction rns with
  | nil => simp [fetchResolved]
  | cons rn rest ih =>
    rcases rn with ⟨r, n⟩
    unfold fetchResolved
    simp only [List.mem_cons]
    rintro (h | h | h)
    · cases h
    · cases h
    · exact ih h

theorem fetch_user_pulls_no_jenkins (w : World) :
    NetAction.connectJenkins ∉ (fetch_user_pulls w).2 := by
  unfold fetch_user_pulls
  split_ifs <;> simp

theorem validate_fetch_no_jenkins (w : World) (pulls : List String) :
    NetAction.connectJenkins ∉ (validate_and_fetch_pull_list w pulls).2 := by
  unfold validate_and_fetch_pull_list
  cases validatePullList pulls with
  | error e => simp
  | ok rns =>
    simp only []
    exact fetchResolved_no_jenkins w rns

theorem selectPulls_no_jenkins (w : World) (parsed : ParsedArgs) :
    NetAction.connectJenkins ∉ (selectPulls w parsed).2 := by
  unfold selectPulls
  by_cases hi : parsed.interactive
  · rw [if_pos hi]
    cases hu : fetch_user_pulls w with
    | mk res tr =>
      have := fetch_user_pulls_no_jenkins w
      rw [hu] at this
      cases res <;> exact this
  · rw [if_neg hi]
    by_cases hp : pyTruthyList parsed.pulls
    · rw [if_pos hp]
      cases hv : validate_and_fetch_pull_list w (parsed.pulls.getD []) with
      | mk res tr =>
        have := validate_fetch_no_jenkins w (parsed.pulls.getD [])
        rw [hv] at this
        cases res <;> exact this
    · rw [if_neg hp]
      simp

theorem gistStep_no_jenkins (w : World) (parsed : ParsedArgs)
    (chosenPulls : List PullRequest) :
    NetAction.connectJenkins ∉ (gistStep w parsed chosenPulls).2 := by
  unfold gistStep
  split_ifs with h
  · unfold create_ci_gist
    cases mergePulls (w.baseline parsed.target) chosenPulls <;> simp
  · simp

/-- C9 (amended): supplying colcon build, colcon test, or cmake args without
`--build` always makes the run fail with a fatal error, and the CI server
connection is never opened — but the rejection happens only at line 436, after
pull-request resolution and gist creation, so network calls (GitHub lookups, the
baseline fetch, gist publication) may already have occurred, contrary to the
claim's "before any network call". -/
theorem colcon_args_without_build (w : World) (env : String → Option String)
    (parsed : ParsedArgs) (hb : parsed.build = false)
    (hargs : parsed.colconBuildArgs ≠ "" ∨ parsed.colconTestArgs ≠ "" ∨
      parsed.cmakeArgs ≠ "") :
    (∃ e, (ciForPrMain w env parsed).1 = .error e) ∧
    NetAction.connectJenkins ∉ (ciForPrMain w env parsed).2 := by
  unfold ciForPrMain
  cases htok : tokenLookup env with
  | error e => exact ⟨⟨e, rfl⟩, by simp⟩
  | ok tok =>
    have hsel2 := selectPulls_no_jenkins w parsed
    cases hsel : selectPulls w parsed with
    | mk res tr1 =>
      rw [hsel] at hsel2
      cases res with
      | error e => exact ⟨⟨e, rfl⟩, hsel2⟩
      | ok sel =>
        simp only []
        have hg2 := gistStep_no_jenkins w parsed sel.2
        cases hg : gistStep w parsed sel.2 with
        | mk gres tr2 =>
          rw [hg] at hg2
          have hmemapp : NetAction.connectJenkins ∉ tr1 ++ tr2 := by
            simp only [List.mem_append]
            rintro (h | h)
            · exact hsel2 h
            · exact hg2 h
          cases gres with
          | error e =>
            simp only []
            split_ifs with h1 h2
            · exact ⟨⟨_, rfl⟩, hsel2⟩
            · exact ⟨⟨_, rfl⟩, hsel2⟩
            · exact ⟨⟨e, rfl⟩, hmemapp⟩
          | ok gistUrl =>
            simp only []
            split_ifs with h1 h2 h3 h4
            · exact ⟨⟨_, rfl⟩, hsel2⟩
            · exact ⟨⟨_, rfl⟩, hsel2⟩
            · exact ⟨⟨_, rfl⟩, hmemapp⟩
            · exact absurd ⟨by simp [hb], hargs⟩ h3
            · exact absurd ⟨by simp [hb], hargs⟩ h3

/-- C9 counterexample: with `--pulls ros2/rclpy#353 --colcon-build-args -j1` and no
`--build`, the run is indeed rejected with the fatal colcon-args panic, but the
trace already contains four network calls (repository and pull-request lookup,
baseline manifest fetch, gist creation) made before the rejection — the claim says
the rejection happens before any network call. -/
theorem colcon_args_without_build_cex :
    ciForPrMain demoWorld demoEnv demoArgs =
      (.error (.panic colconPanicMsg),
       [.getRepo "ros2/rclpy", .getPull "ros2/rclpy" 353,
        .fetchReposFile "rolling", .createGist]) ∧
    (ciForPrMain demoWorld demoEnv demoArgs).2 ≠ [] := ⟨rfl, by decide⟩

theorem colcon_args_without_build_witness :
    (∃ e, (ciForPrMain demoWorld demoEnv demoArgs).1 = .error e) ∧
    NetAction.connectJenkins ∉ (ciForPrMain demoWorld demoEnv demoArgs).2 :=
  colcon_args_without_build demoWorld demoEnv demoArgs rfl (Or.inl (by decide))

theorem takeWhile_all (p : Char → Bool) (l : List Char) (h : ∀ c ∈ l, p c = true) :
    l.takeWhile p = l := by
  induction l with
  | nil => rfl
  | cons a t ih =>
    rw [List.takeWhile_cons_of_pos (h a (List.mem_cons_self a t))]
    rw [ih (fun c hc => h c (List.mem_cons_of_mem a hc))]

theorem dropWhile_none (p : Char → Bool) (l : List Char) (h : ∀ c ∈ l, p c = false) :
    l.dropWhile p = l := by
  cases l with
  | nil => rfl
  | cons a t => rw [List.dropWhile_cons_of_neg (by simp [h a (List.mem_cons_self a t)])]

theorem digit_ne (c x : Char) (hc : isDigitChar c = true) (hx : isDigitChar x = false) :
    c ≠ x := by
  intro h
  rw [h] at hc
  rw [hc] at hx
  cases hx

theorem digit_not_ws (c : Char) (hc : isDigitChar c = true) : isPyWs c = false := by
  simp [isPyWs, digit_ne c ' ' hc (by decide), digit_ne c '\t' hc (by decide),
    digit_ne c '\n' hc (by decide), digit_ne c '\r' hc (by decide),
    digit_ne c '\x0b' hc (by decide), digit_ne c '\x0c' hc (by decide)]

theorem hasSlashP_tail (c : Char) (rest : List Char) (h : hasSlashP (c :: rest) = false) :
    hasSlashP rest = false := by
  cases rest with
  | nil => rfl
  | cons b r =>
    unfold hasSlashP at h
    simp only [Bool.or_eq_false_iff] at h
    exact h.2

theorem hasSlashP_noslash (l : List Char) (h : ∀ c ∈ l, c ≠ '/') : hasSlashP l = false := by
  induction l with
  | nil => rfl
  | cons a t ih =>
    cases t with
    | nil => rfl
    | cons b r =>
      unfold hasSlashP
      simp only [Bool.or_eq_false_iff]
      constructor
      · simp [h a (List.mem_cons_self _ _)]
      · exact ih (fun c hc => h c (List.mem_cons_of_mem a hc))

theorem litTry_none (l : List Char) (h : hasSlashP l = false) : litTry l = none := by
  unfold litTry
  by_cases ht : l.take 6 = pullLit
  · exfalso
    cases l with
    | nil => simp [pullLit] at ht
    | cons a t =>
      cases t with
      | nil => simp [pullLit, List.take] at ht
      | cons b r =>
        simp only [List.take, pullLit, List.cons.injEq] at ht
        unfold hasSlashP at h
        simp only [Bool.or_eq_false_iff] at h
        have := h.1
        rw [ht.1, ht.2.1] at this
        simp at this
  · rw [if_neg ht]

theorem tailMatch_none (l : List Char) (h : hasSlashP l = false) : tailMatch l = none := by
  induction l with
  | nil => rfl
  | cons c rest ih =>
    unfold tailMatch
    rw [ih (hasSlashP_tail c rest h)]
    rw [litTry_none _ h]
    simp

theorem hasSlashP_pulltail (ds : List Char) (hds : ds.all isDigitChar = true) :
    hasSlashP ('p' :: 'u' :: 'l' :: 'l' :: '/' :: ds) = false := by
  have hnoslash : ∀ c ∈ ds, c ≠ '/' := by
    intro c hc
    exact digit_ne c '/' (by simpa using (List.all_eq_true.mp hds c hc)) (by decide)
  unfold hasSlashP
  simp only [Bool.or_eq_false_iff]
  refine ⟨by decide, ?_⟩
  unfold hasSlashP
  simp only [Bool.or_eq_false_iff]
  refine ⟨by decide, ?_⟩
  unfold hasSlashP
  simp only [Bool.or_eq_false_iff]
  refine ⟨by decide, ?_⟩
  unfold hasSlashP
  simp only [Bool.or_eq_false_iff]
  refine ⟨by decide, ?_⟩
  cases ds with
  | nil => rfl
  | cons d ds2 =>
    unfold hasSlashP
    simp only [Bool.or_eq_false_iff]
    constructor
    · have : d ≠ 'p' := digit_ne d 'p'
        (by simpa using (List.all_eq_true.mp hds d (List.mem_cons_self _ _))) (by decide)
      simp [this]
    · exact hasSlashP_noslash _ (fun c hc => hnoslash c hc)

theorem litTry_pull (ds : List Char) (hne : ds ≠ []) (hds : ds.all isDigitChar = true) :
    litTry ('/' :: 'p' :: 'u' :: 'l' :: 'l' :: '/' :: ds) = some ds := by
  unfold litTry
  rw [if_pos (by simp [pullLit, List.take])]
  have : takeDigits ds = ds := by
    unfold takeDigits
    exact takeWhile_all _ _ (fun c hc => List.all_eq_true.mp hds c hc)
  simp only [List.drop, this]
  rw [if_neg (by simpa using hne)]

theorem tailMatch_found (ds : List Char) (hne : ds ≠ []) (hds : ds.all isDigitChar = true) :
    ∀ g : List Char, (∀ c ∈ g, c ≠ '/' ∧ c ≠ '\n') →
      tailMatch (g ++ '/' :: 'p' :: 'u' :: 'l' :: 'l' :: '/' :: ds) = some (g, ds) := by
  intro g
  induction g with
  | nil =>
    intro _
    show tailMatch ('/' :: 'p' :: 'u' :: 'l' :: 'l' :: '/' :: ds) = some ([], ds)
    unfold tailMatch
    rw [tailMatch_none _ (hasSlashP_pulltail ds hds)]
    rw [litTry_pull ds hne hds]
    simp
  | cons c g2 ih =>
    intro hg
    have hc := hg c (List.mem_cons_self _ _)
    show tailMatch (c :: (g2 ++ '/' :: 'p' :: 'u' :: 'l' :: 'l' :: '/' :: ds)) = some (c :: g2, ds)
    unfold tailMatch
    rw [if_neg hc.2]
    rw [ih (fun x hx => hg x (List.mem_cons_of_mem c hx))]
    simp

theorem urlTail_noslash (l : List Char) (h : ∀ c ∈ l, c ≠ '/') : urlTail l = none := by
  induction l with
  | nil => rfl
  | cons c rest ih =>
    unfold urlTail
    rw [ih (fun x hx => h x (List.mem_cons_of_mem c hx))]
    by_cases hc : c = '\n'
    · simp [hc, h c (List.mem_cons_self _ _)]
    · simp [hc, h c (List.mem_cons_self _ _)]

theorem urlTail_inner_none (ds : List Char) (hds : ds.all isDigitChar = true) :
    urlTail ('p' :: 'u' :: 'l' :: 'l' :: '/' :: ds) = none := by
  have hdig : ∀ c ∈ ds, c ≠ '/' := fun c hc =>
    digit_ne c '/' (by simpa using (List.all_eq_true.mp hds c hc)) (by decide)
  have h0 : urlTail ds = none := urlTail_noslash ds hdig
  have h1 : urlTail ('/' :: ds) = none := by
    unfold urlTail
    rw [h0]
    have h2 : tailMatch ds = none := tailMatch_none ds (hasSlashP_noslash ds hdig)
    simp [h2]
  have h2 : urlTail ('l' :: '/' :: ds) = none := by
    unfold urlTail
    rw [h1]
    simp
  have h3 : urlTail ('l' :: 'l' :: '/' :: ds) = none := by
    unfold urlTail
    rw [h2]
    simp
  have h4 : urlTail ('u' :: 'l' :: 'l' :: '/' :: ds) = none := by
    unfold urlTail
    rw [h3]
    simp
  unfold urlTail
  rw [h4]
  simp

theorem urlTail_mid_none (ds : List Char) (hds : ds.all isDigitChar = true) :
    ∀ R : List Char, (∀ c ∈ R, c ≠ '/') →
      urlTail (R ++ '/' :: 'p' :: 'u' :: 'l' :: 'l' :: '/' :: ds) = none := by
  intro R
  induction R with
  | nil =>
    intro _
    show urlTail ('/' :: 'p' :: 'u' :: 'l' :: 'l' :: '/' :: ds) = none
    unfold urlTail
    rw [urlTail_inner_none ds hds]
    rw [tailMatch_none _ (hasSlashP_pulltail ds hds)]
    simp
  | cons c R2 ih =>
    intro hR
    show urlTail (c :: (R2 ++ '/' :: 'p' :: 'u' :: 'l' :: 'l' :: '/' :: ds)) = none
    unfold urlTail
    rw [ih (fun x hx => hR x (List.mem_cons_of_mem c hx))]
    by_cases hc : c = '\n'
    · simp [hc, hR c (List.mem_cons_self _ _)]
    · simp [hc, hR c (List.mem_cons_self _ _)]

theorem urlTail_found (ds : List Char) (hne : ds ≠ []) (hds : ds.all isDigitChar = true)
    (R : List Char) (hR : ∀ c ∈ R, c ≠ '/' ∧ c ≠ '\n') :
    ∀ O : List Char, (∀ c ∈ O, c ≠ '/' ∧ c ≠ '\n') →
      urlTail (O ++ '/' :: (R ++ '/' :: 'p' :: 'u' :: 'l' :: 'l' :: '/' :: ds)) =
        some (O, R, ds) := by
  intro O
  induction O with
  | nil =>
    intro _
    show urlTail ('/' :: (R ++ '/' :: 'p' :: 'u' :: 'l' :: 'l' :: '/' :: ds)) = some ([], R, ds)
    unfold urlTail
    rw [urlTail_mid_none ds hds R (fun c hc => (hR c hc).1)]
    rw [tailMatch_found ds hne hds R hR]
    simp
  | cons c O2 ih =>
    intro hO
    have hc := hO c (List.mem_cons_self _ _)
    show urlTail (c :: (O2 ++ '/' :: (R ++ '/' :: 'p' :: 'u' :: 'l' :: 'l' :: '/' :: ds))) =
      some (c :: O2, R, ds)
    unfold urlTail
    rw [if_neg hc.2]
    rw [ih (fun x hx => hO x (List.mem_cons_of_mem c hx))]
    simp

theorem data_mk (l : List Char) : (⟨l⟩ : String).data = l := rfl

theorem string_mk_data (s : String) : (⟨s.data⟩ : String) = s := by
  obtain ⟨d⟩ := s
  rfl

theorem pyInt_digits (ds : List Char) (hne : ds ≠ []) (hds : ds.all isDigitChar = true) :
    pyInt ⟨ds⟩ = some (Int.ofNat (digitsToNat ds)) := by
  have hstrip : pyStrip ds = ds := by
    unfold pyStrip
    rw [dropWhile_none _ _ (fun c hc => digit_not_ws c (List.all_eq_true.mp hds c hc))]
    rw [dropWhile_none _ _
      (fun c hc => digit_not_ws c (List.all_eq_true.mp hds c (List.mem_reverse.mp hc)))]
    exact List.reverse_reverse ds
  unfold pyInt
  rw [data_mk, hstrip]
  rcases ds with _ | ⟨d, ds2⟩
  · exact absurd rfl hne
  · have hd : isDigitChar d = true := List.all_eq_true.mp hds d (List.mem_cons_self _ _)
    unfold pyIntCore
    simp only []
    rw [if_neg (digit_ne d '+' hd (by decide))]
    rw [if_neg (digit_ne d '-' hd (by decide))]
    rw [if_pos hds]

theorem urlForm_data (O R : String) (ds : List Char) :
    (urlForm O R ds).data =
      "https://github".data ++ '.' :: ("com/".data ++
        (O.data ++ '/' :: (R.data ++ '/' :: 'p' :: 'u' :: 'l' :: 'l' :: '/' :: ds))) := by
  have e1 : "https://github.com/".data = "https://github".data ++ '.' :: "com/".data := rfl
  have e2 : ("/" : String).data = ['/'] := rfl
  have e3 : "/pull/".data = ['/', 'p', 'u', 'l', 'l', '/'] := rfl
  simp [urlForm, String.data_append, data_mk, e1, e2, e3]

theorem hashForm_data (O R : String) (ds : List Char) :
    (hashForm O R ds).data = O.data ++ '/' :: (R.data ++ '#' :: ds) := by
  have e2 : ("/" : String).data = ['/'] := rfl
  have e4 : ("#" : String).data = ['#'] := rfl
  simp [hashForm, String.data_append, data_mk, e2, e4]

theorem githubUrlMatch_url (O R : String) (ds : List Char)
    (hO : ∀ c ∈ O.data, c ≠ '/' ∧ c ≠ '\n')
    (hR : ∀ c ∈ R.data, c ≠ '/' ∧ c ≠ '\n')
    (hne : ds ≠ []) (hds : ds.all isDigitChar = true) :
    githubUrlMatch (urlForm O R ds) = some (O, R, ⟨ds⟩) := by
  unfold githubUrlMatch
  rw [urlForm_data]
  rw [List.take_left' (by rfl)]
  rw [if_pos rfl]
  rw [List.drop_left' (by rfl)]
  simp only []
  rw [List.take_left' (by rfl : ("com/".data).length = 4)]
  rw [if_pos (by decide)]
  rw [List.drop_left' (by rfl : ("com/".data).length = 4)]
  rw [urlTail_found ds hne hds R.data hR O.data hO]
  simp [string_mk_data]

theorem githubUrlMatch_hash (O R : String) (ds : List Char)
    (hO : ∀ c ∈ O.data, c ≠ '/') (hR : ∀ c ∈ R.data, c ≠ '/')
    (hds : ds.all isDigitChar = true) :
    githubUrlMatch (hashForm O R ds) = none := by
  unfold githubUrlMatch
  rw [if_neg]
  intro h
  have hsub : ((hashForm O R ds).data.take 14).Sublist (hashForm O R ds).data :=
    List.take_sublist _ _
  have hcount := hsub.count_le '/'
  rw [h] at hcount
  rw [hashForm_data] at hcount
  have h2 : List.count '/' "https://github".data = 2 := rfl
  rw [h2] at hcount
  have hO0 : List.count '/' O.data = 0 :=
    List.count_eq_zero.mpr (fun hm => hO '/' hm rfl)
  have hR0 : List.count '/' R.data = 0 :=
    List.count_eq_zero.mpr (fun hm => hR '/' hm rfl)
  have hds0 : List.count '/' ds = 0 :=
    List.count_eq_zero.mpr
      (fun hm => digit_ne '/' '/' (List.all_eq_true.mp hds '/' hm) (by decide) rfl)
  rw [List.count_append, List.count_cons, List.count_append, List.count_cons] at hcount
  simp [hO0, hR0, hds0] at hcount

theorem hashCount_hashForm (O R : String) (ds : List Char)
    (hO : ∀ c ∈ O.data, c ≠ '#') (hR : ∀ c ∈ R.data, c ≠ '#')
    (hds : ds.all isDigitChar = true) :
    hashCount (hashForm O R ds) = 1 := by
  unfold hashCount
  rw [hashForm_data]
  have hO0 : List.count '#' O.data = 0 :=
    List.count_eq_zero.mpr (fun hm => hO '#' hm rfl)
  have hR0 : List.count '#' R.data = 0 :=
    List.count_eq_zero.mpr (fun hm => hR '#' hm rfl)
  have hds0 : List.count '#' ds = 0 :=
    List.count_eq_zero.mpr
      (fun hm => digit_ne '#' '#' (List.all_eq_true.mp hds '#' hm) (by decide) rfl)
  rw [List.count_append, List.count_cons, List.count_append, List.count_cons]
  simp [hO0, hR0, hds0]

theorem split_on_hash (b : List Char) :
    ∀ a : List Char, (∀ c ∈ a, c ≠ '#') →
      (a ++ '#' :: b).takeWhile (· ≠ '#') = a ∧
      (a ++ '#' :: b).dropWhile (· ≠ '#') = '#' :: b := by
  intro a
  induction a with
  | nil =>
    intro _
    constructor
    · rw [List.nil_append, List.takeWhile_cons_of_neg (by simp)]
    · rw [List.nil_append, List.dropWhile_cons_of_neg (by simp)]
  | cons c a2 ih =>
    intro ha
    have hc := ha c (List.mem_cons_self _ _)
    have ih2 := ih (fun x hx => ha x (List.mem_cons_of_mem c hx))
    constructor
    · rw [List.cons_append, List.takeWhile_cons_of_pos (by simp [hc])]
      rw [ih2.1]
    · rw [List.cons_append, List.dropWhile_cons_of_pos (by simp [hc])]
      exact ih2.2

theorem splitHash_hashForm (O R : String) (ds : List Char)
    (hO : ∀ c ∈ O.data, c ≠ '#') (hR : ∀ c ∈ R.data, c ≠ '#')
    (_hds : ds.all isDigitChar = true) :
    splitHash (hashForm O R ds) = (O ++ "/" ++ R, ⟨ds⟩) := by
  unfold splitHash
  rw [hashForm_data]
  have hshape : O.data ++ '/' :: (R.data ++ '#' :: ds) =
      (O.data ++ '/' :: R.data) ++ '#' :: ds := by simp
  rw [hshape]
  have hmem : ∀ c ∈ O.data ++ '/' :: R.data, c ≠ '#' := by
    intro c hc
    rcases List.mem_append.mp hc with h | h
    · exact hO c h
    · rcases List.mem_cons.mp h with rfl | h
      · decide
      · exact hR c h
  have hsplit := split_on_hash ds (O.data ++ '/' :: R.data) hmem
  rw [hsplit.1, hsplit.2]
  have hdata2 : (O ++ "/" ++ R).data = O.data ++ '/' :: R.data := by
    have e2 : ("/" : String).data = ['/'] := rfl
    simp [String.data_append, e2]
  refine Prod.ext ?_ ?_
  · show (⟨O.data ++ '/' :: R.data⟩ : String) = O ++ "/" ++ R
    rw [← hdata2]
  · show (⟨('#' :: ds).drop 1⟩ : String) = (⟨ds⟩ : String)
    rfl

theorem resolveOne_url (O R : String) (ds : List Char)
    (hO : ∀ c ∈ O.data, c ≠ '/' ∧ c ≠ '\n')
    (hR : ∀ c ∈ R.data, c ≠ '/' ∧ c ≠ '\n')
    (hne : ds ≠ []) (hds : ds.all isDigitChar = true) :
    resolveOne (urlForm O R ds) = .ok (O ++ "/" ++ R, Int.ofNat (digitsToNat ds)) := by
  unfold resolveOne
  rw [githubUrlMatch_url O R ds hO hR hne hds]
  simp only []
  rw [pyInt_digits ds hne hds]

theorem resolveOne_hash (O R : String) (ds : List Char)
    (hO : ∀ c ∈ O.data, c ≠ '/' ∧ c ≠ '#') (hR : ∀ c ∈ R.data, c ≠ '/' ∧ c ≠ '#')
    (hne : ds ≠ []) (hds : ds.all isDigitChar = true) :
    resolveOne (hashForm O R ds) = .ok (O ++ "/" ++ R, Int.ofNat (digitsToNat ds)) := by
  unfold resolveOne
  rw [githubUrlMatch_hash O R ds (fun c hc => (hO c hc).1) (fun c hc => (hR c hc).1) hds]
  simp only []
  rw [hashCount_hashForm O R ds (fun c hc => (hO c hc).2) (fun c hc => (hR c hc).2) hds]
  rw [if_neg (by simp)]
  rw [splitHash_hashForm O R ds (fun c hc => (hO c hc).2) (fun c hc => (hR c hc).2) hds]
  simp only []
  rw [pyInt_digits ds hne hds]

/-- C4: for any org and repository name (no `/`, `#` or newline characters) and any
nonempty digit string, resolving the URL-form identifier
`https://github.com/<org>/<repo>/pull/<digits>` and resolving the `#`-form
identifier `<org>/<repo>#<digits>` give exactly the same result: the single entry
whose base repository is `<org>/<repo>` and whose pull number is the value of the
digit string. -/
theorem url_and_hash_forms_agree (O R : String) (ds : List Char)
    (hO : ∀ c ∈ O.data, c ≠ '/' ∧ c ≠ '#' ∧ c ≠ '\n')
    (hR : ∀ c ∈ R.data, c ≠ '/' ∧ c ≠ '#' ∧ c ≠ '\n')
    (hne : ds ≠ []) (hds : ds.all isDigitChar = true) :
    validatePullList [urlForm O R ds] = validatePullList [hashForm O R ds] ∧
    validatePullList [urlForm O R ds] =
      .ok [(O ++ "/" ++ R, Int.ofNat (digitsToNat ds))] := by
  have h1 := resolveOne_url O R ds (fun c hc => ⟨(hO c hc).1, (hO c hc).2.2⟩)
    (fun c hc => ⟨(hR c hc).1, (hR c hc).2.2⟩) hne hds
  have h2 := resolveOne_hash O R ds (fun c hc => ⟨(hO c hc).1, (hO c hc).2.1⟩)
    (fun c hc => ⟨(hR c hc).1, (hR c hc).2.1⟩) hne hds
  unfold validatePullList validateLoop
  rw [h1, h2]
  simp [validateLoop]

theorem url_and_hash_forms_agree_witness :
    validatePullList [urlForm "ros2" "rclpy" ['3', '5', '3']] =
      validatePullList [hashForm "ros2" "rclpy" ['3', '5', '3']] ∧
    validatePullList [urlForm "ros2" "rclpy" ['3', '5', '3']] =
      .ok [("ros2/rclpy", 353)] := by
  have h := url_and_hash_forms_agree "ros2" "rclpy" ['3', '5', '3']
    (by decide) (by decide) (by decide) (by decide)
  exact ⟨h.1, h.2.trans rfl⟩
